import Mathlib

/-!
# Verification of the wizard OAuth / credential-store core

A shallow embedding, in Lean 4, of the security-relevant core of the
`belticlabs/wizard` repository:

* `src/utils/oauth.ts` — the PKCE primitives, the loopback callback
  listener's request handler (`startCallbackServer`), and the orchestrator
  `performOAuthFlow` (the phase after the listener has started: the race
  between the callback and the five-minute timer, the token exchange, the
  error-message classification in the `catch` block, and the closing of the
  server socket).
* `src/lib/credentials.ts` — the stored-credentials schema, `saveCredentials`,
  `loadCredentials` and `hasValidCredentials`.

Conventions of the embedding:

* A query parameter read with `url.searchParams.get(k)` is an
  `Option String`: `none` when the parameter is absent, `some v` otherwise
  (`v` may be the empty string, as for `?code=`).  JavaScript truthiness
  tests such as `if (error)` are modelled by `jsTruthy`, which is false for
  both `none` and `some ""`.
* Machine numbers are modelled by `Nat`/`Int` with explicit reduction
  `% 2 ^ 32` where 32-bit overflow matters (inside SHA-256).  Epoch
  timestamps (`Date.now()`, `expiresAt`) are `Int` millisecond counts.
* The platform built-ins the source calls are modelled executably:
  SHA-256 (`node:crypto`) is implemented in full, `JSON.stringify` /
  `JSON.parse` by a printer and a recursive-descent parser over `List Char`,
  and `z.string().email()` by an executable predicate following zod's email
  regular expression.  JSON numbers are modelled as integers (the
  credential file only ever stores integral epoch milliseconds).
* Promise resolution / rejection of the listener's single completion signal
  is the inductive `CallbackSignal`; the orchestrator phase that races it
  against the timer is the pure function `flowAwaitPhase`, a function of
  which of the three sources fires (callback resolve, callback reject,
  timer) and of the token-exchange result.
-/

set_option maxHeartbeats 1000000
set_option maxRecDepth 8000

namespace Wizard

/-! ## Small string utilities -/

/-- JavaScript `String.prototype.includes`: `needle` occurs contiguously in
`hay`. -/
def containsSubstr (hay needle : String) : Bool :=
  decide (needle.toList <:+: hay.toList)

/-- JavaScript truthiness of a `string | null` value: `null` and the empty
string are falsy, every other string truthy. -/
def jsTruthy : Option String → Bool
  | none => false
  | some s => !(s = "")

/-- The opening-brace character, `{`. -/
def braceO : Char := Char.ofNat 123

/-- The closing-brace character, `}`. -/
def braceC : Char := Char.ofNat 125

/-! ## Constants (`src/lib/constants.ts`, `src/utils/oauth.ts`) -/

/-- `OAUTH_PORT` from `src/lib/constants.ts`. -/
def OAUTH_PORT : Nat := 8239

/-- The timeout passed to `setTimeout` in `performOAuthFlow`: `300_000`
milliseconds. -/
def OAUTH_TIMEOUT_MS : Nat := 300000

/-- The fixed loopback redirect URI `http://localhost:${OAUTH_PORT}/callback`
used both in the authorization URL and in the token-exchange body. -/
def redirectUri : String := "http://localhost:" ++ toString OAUTH_PORT ++ "/callback"

/-! ## The callback listener's request handler (`startCallbackServer`) -/

/-- The query parameters the `/callback` handler reads, each as
`url.searchParams.get(·)` returns it. -/
structure CallbackQuery where
  code : Option String
  error : Option String
  state : Option String
deriving DecidableEq, Repr

/-- The distinct response bodies the handler writes (the HTML pages are
abbreviated to tags; their texts do not influence control flow). -/
inductive Page where
  /-- "Authorization cancelled." page (the `access_denied` branch). -/
  | cancelledHtml
  /-- "Authorization failed." page (any other truthy `error`). -/
  | failedHtml
  /-- "Invalid state parameter. Authorization failed." page. -/
  | invalidStateHtml
  /-- "Authorization successful!" page. -/
  | successHtml
  /-- "Invalid request - no authorization code received." page. -/
  | noCodeHtml
  /-- Empty body (`res.end()` with no HTML). -/
  | empty
  /-- A 302 redirect with the given `Location`. -/
  | redirect (location : String)
deriving DecidableEq, Repr

/-- An HTTP response: status code and body. -/
structure HttpResponse where
  status : Nat
  page : Page
deriving DecidableEq, Repr

/-- The listener's single completion signal: `callbackResolve(code)` or
`callbackReject(new Error(msg))`. -/
inductive CallbackSignal where
  | resolve (code : String)
  | reject (msg : String)
deriving DecidableEq, Repr

/-- The message of the state-mismatch rejection. -/
def stateMismatchMsg : String :=
  "State mismatch: OAuth callback state does not match expected value"

/-- The message of the missing-code rejection. -/
def noCodeMsg : String := "No authorization code in callback URL"

/-- The `/callback` branch of the request handler in `startCallbackServer`,
translated clause for clause:
1. `if (error)` — truthy `error` answers 200 with the cancelled page when it
   equals `access_denied`, else 400 with the failure page, and rejects with
   `OAuth error: <error>`;
2. `if (!state || state !== expectedState)` — 400, invalid-state page,
   rejects with the state-mismatch message;
3. `if (code)` — truthy `code` answers 200 with the success page and
   resolves with the code; otherwise 400, no-code page, rejects with the
   missing-code message. -/
def handleCallback (expectedState : String) (q : CallbackQuery) :
    HttpResponse × CallbackSignal :=
  if jsTruthy q.error then
    let err := q.error.getD ""
    if err = "access_denied" then
      (⟨200, .cancelledHtml⟩, .reject ("OAuth error: " ++ err))
    else
      (⟨400, .failedHtml⟩, .reject ("OAuth error: " ++ err))
  else if !jsTruthy q.state || q.state.getD "" ≠ expectedState then
    (⟨400, .invalidStateHtml⟩, .reject stateMismatchMsg)
  else if jsTruthy q.code then
    (⟨200, .successHtml⟩, .resolve (q.code.getD ""))
  else
    (⟨400, .noCodeHtml⟩, .reject noCodeMsg)

/-- A parsed request to the listener: the pathname and the query parameters
the two routes read. -/
structure Request where
  pathname : String
  code : Option String
  error : Option String
  state : Option String
  signup : Option String
deriving DecidableEq, Repr

/-- The whole request handler of `startCallbackServer`: `/authorize`
redirects (302) to the signup URL when `signup=true` and a truthy signup URL
is configured, else to the auth URL; `/callback` is `handleCallback`; every
other path is a bare 404.  The second component is the completion signal the
request produces, if any. -/
def handleRequest (authUrl : String) (signupUrl : Option String)
    (expectedState : String) (req : Request) :
    HttpResponse × Option CallbackSignal :=
  if req.pathname = "/authorize" then
    let isSignup := req.signup = some "true"
    let redirectUrl := if isSignup && jsTruthy signupUrl then signupUrl.getD "" else authUrl
    (⟨302, .redirect redirectUrl⟩, none)
  else if req.pathname = "/callback" then
    let r := handleCallback expectedState ⟨req.code, req.error, req.state⟩
    (r.1, some r.2)
  else
    (⟨404, .empty⟩, none)

/-! ## The orchestrator's await-and-exchange phase (`performOAuthFlow`) -/

/-- A token response accepted by `OAuthTokenResponseSchema`. -/
structure OAuthTokenResponse where
  access_token : String
  expires_in : Option Int
  token_type : Option String
  scope : Option String
  refresh_token : Option String
deriving DecidableEq, Repr

/-- Which of the raced sources settles `Promise.race([waitForCallback(),
timeoutPromise])`: the listener's signal, or the 300-second timer. -/
inductive AwaitOutcome where
  | callback (s : CallbackSignal)
  | timerFired
deriving DecidableEq, Repr

/-- The result of `exchangeCodeForToken`: a schema-valid token response, or
a thrown error carrying a message (network failure or schema failure). -/
inductive ExchangeOutcome where
  | success (tok : OAuthTokenResponse)
  | failure (msg : String)
deriving DecidableEq, Repr

/-- The user-facing message category chosen by the `catch` block of
`performOAuthFlow`. -/
inductive MsgCategory where
  /-- "Authorization timed out after 5 minutes. Please try again." -/
  | timedOutMsg
  /-- "Security error: … State mismatch …" -/
  | securityMsg
  /-- "Authorization was cancelled. You denied access …" -/
  | cancelledMsg
  /-- "Authorization failed: <message> … create an issue …" -/
  | genericMsg
deriving DecidableEq, Repr

/-- The message of the error the timer rejects with:
`new Error('Authorization timed out')`. -/
def timerRejectionMsg : String := "Authorization timed out"

/-- The `catch` block's classification of the caught error's message,
clause for clause: `error.message.includes('timeout')`, then
`includes('State mismatch')`, then `includes('access_denied')`, else the
generic branch. -/
def classifyFailure (msg : String) : MsgCategory :=
  if containsSubstr msg "timeout" then .timedOutMsg
  else if containsSubstr msg "State mismatch" then .securityMsg
  else if containsSubstr msg "access_denied" then .cancelledMsg
  else .genericMsg

/-- What `performOAuthFlow` does after the listener has been started and the
race has been awaited: whether the server socket was closed, whether the
token endpoint was called, and the outcome (a returned token response, or a
thrown error with its message and its user-facing classification). -/
structure FlowEnd where
  serverClosed : Bool
  tokenEndpointCalled : Bool
  outcome : OAuthTokenResponse ⊕ (MsgCategory × String)
deriving DecidableEq, Repr

/-- The `try`/`catch` tail of `performOAuthFlow`, as a function of which
race source fired and of the exchange function:

* the callback resolved a code — `exchangeCodeForToken` is called; on
  success the server is closed and the token returned; on a thrown exchange
  error the `catch` closes the server and classifies the message;
* the callback rejected — the `catch` closes the server and classifies;
* the timer fired first — the race rejects with `Authorization timed out`
  and the `catch` closes the server and classifies that message. -/
def flowAwaitPhase (awaited : AwaitOutcome) (exchange : String → ExchangeOutcome) :
    FlowEnd :=
  match awaited with
  | .callback (.resolve code) =>
    match exchange code with
    | .success tok =>
      { serverClosed := true, tokenEndpointCalled := true, outcome := .inl tok }
    | .failure msg =>
      { serverClosed := true, tokenEndpointCalled := true
        outcome := .inr (classifyFailure msg, msg) }
  | .callback (.reject msg) =>
    { serverClosed := true, tokenEndpointCalled := false
      outcome := .inr (classifyFailure msg, msg) }
  | .timerFired =>
    { serverClosed := true, tokenEndpointCalled := false
      outcome := .inr (classifyFailure timerRejectionMsg, timerRejectionMsg) }

/-! ## SHA-256 (models `node:crypto`'s `createHash('sha256')`)

Bytes are `Nat < 256`, 32-bit words are `Nat < 2 ^ 32`; every operation that
could overflow reduces explicitly with `% 2 ^ 32`. -/

/-- Reduce to a 32-bit word. -/
def w32 (n : Nat) : Nat := n % 4294967296

/-- Right rotation of a 32-bit word by `k` bits. -/
def rotr32 (k x : Nat) : Nat := w32 ((x >>> k) ||| (x <<< (32 - k)))

/-- Bitwise complement of a 32-bit word. -/
def not32 (x : Nat) : Nat := Nat.xor x 4294967295

/-- SHA-256 round constants (FIPS 180-4 §4.2.2, written in decimal). -/
def sha256K : List Nat :=
  [1116352408, 1899447441, 3049323471, 3921009573, 961987163,
   1508970993, 2453635748, 2870763221, 3624381080, 310598401,
   607225278, 1426881987, 1925078388, 2162078206, 2614888103,
   3248222580, 3835390401, 4022224774, 264347078, 604807628,
   770255983, 1249150122, 1555081692, 1996064986, 2554220882,
   2821834349, 2952996808, 3210313671, 3336571891, 3584528711,
   113926993, 338241895, 666307205, 773529912, 1294757372,
   1396182291, 1695183700, 1986661051, 2177026350, 2456956037,
   2730485921, 2820302411, 3259730800, 3345764771, 3516065817,
   3600352804, 4094571909, 275423344, 430227734, 506948616,
   659060556, 883997877, 958139571, 1322822218, 1537002063,
   1747873779, 1955562222, 2024104815, 2227730452, 2361852424,
   2428436474, 2756734187, 3204031479, 3329325298]

/-- SHA-256 initial hash state (FIPS 180-4 §5.3.3, written in decimal). -/
def sha256H0 : List Nat :=
  [1779033703, 3144134277, 1013904242, 2773480762,
   1359893119, 2600822924, 528734635, 1541459225]

/-- Big-endian bytes of a 64-bit quantity. -/
def be64 (n : Nat) : List Nat :=
  [(n >>> 56) &&& 255, (n >>> 48) &&& 255, (n >>> 40) &&& 255, (n >>> 32) &&& 255,
   (n >>> 24) &&& 255, (n >>> 16) &&& 255, (n >>> 8) &&& 255, n &&& 255]

/-- Big-endian bytes of a 32-bit word. -/
def be32 (n : Nat) : List Nat :=
  [(n >>> 24) &&& 255, (n >>> 16) &&& 255, (n >>> 8) &&& 255, n &&& 255]

/-- SHA-256 message padding: `0x80`, zeros to 56 mod 64, then the bit length
as 64-bit big-endian. -/
def sha256Pad (msg : List Nat) : List Nat :=
  let zeros := (64 - ((msg.length + 9) % 64)) % 64
  msg ++ [128] ++ List.replicate zeros 0 ++ be64 (8 * msg.length)

/-- The sixteen big-endian words of a 64-byte block. -/
def blockWords (block : List Nat) : List Nat :=
  (List.range 16).map fun i =>
    (block.getD (4 * i) 0) <<< 24 + (block.getD (4 * i + 1) 0) <<< 16 +
    (block.getD (4 * i + 2) 0) <<< 8 + block.getD (4 * i + 3) 0

/-- σ0 of the message schedule. -/
def ssig0 (x : Nat) : Nat := Nat.xor (Nat.xor (rotr32 7 x) (rotr32 18 x)) (x >>> 3)

/-- σ1 of the message schedule. -/
def ssig1 (x : Nat) : Nat := Nat.xor (Nat.xor (rotr32 17 x) (rotr32 19 x)) (x >>> 10)

/-- Σ0 of the compression function. -/
def bsig0 (x : Nat) : Nat := Nat.xor (Nat.xor (rotr32 2 x) (rotr32 13 x)) (rotr32 22 x)

/-- Σ1 of the compression function. -/
def bsig1 (x : Nat) : Nat := Nat.xor (Nat.xor (rotr32 6 x) (rotr32 11 x)) (rotr32 25 x)

/-- The 64-word message schedule of a block. -/
def schedule (block : List Nat) : List Nat :=
  (List.range 48).foldl
    (fun w _ =>
      w ++ [w32 (ssig1 (w.getD (w.length - 2) 0) + w.getD (w.length - 7) 0 +
                 ssig0 (w.getD (w.length - 15) 0) + w.getD (w.length - 16) 0)])
    (blockWords block)

/-- One SHA-256 compression step over a 64-byte block. -/
def compressBlock (h : List Nat) (block : List Nat) : List Nat :=
  let w := schedule block
  let init := (h.getD 0 0, h.getD 1 0, h.getD 2 0, h.getD 3 0,
               h.getD 4 0, h.getD 5 0, h.getD 6 0, h.getD 7 0)
  let fin := (List.range 64).foldl
    (fun st t =>
      let (a, b, c, d, e, f, g, hh) := st
      let ch := Nat.xor (e &&& f) ((not32 e) &&& g)
      let maj := Nat.xor (Nat.xor (a &&& b) (a &&& c)) (b &&& c)
      let t1 := w32 (hh + bsig1 e + ch + sha256K.getD t 0 + w.getD t 0)
      let t2 := w32 (bsig0 a + maj)
      (w32 (t1 + t2), a, b, c, w32 (d + t1), e, f, g))
    init
  let (a, b, c, d, e, f, g, hh) := fin
  [w32 (h.getD 0 0 + a), w32 (h.getD 1 0 + b), w32 (h.getD 2 0 + c),
   w32 (h.getD 3 0 + d), w32 (h.getD 4 0 + e), w32 (h.getD 5 0 + f),
   w32 (h.getD 6 0 + g), w32 (h.getD 7 0 + hh)]

/-- Fold the compression over the first `n` 64-byte blocks of a padded
message. -/
def processBlocks : Nat → List Nat → List Nat → List Nat
  | 0, h, _ => h
  | n + 1, h, rest => processBlocks n (compressBlock h (rest.take 64)) (rest.drop 64)

/-- SHA-256 of a byte sequence, as 32 bytes. -/
def sha256 (msg : List Nat) : List Nat :=
  let padded := sha256Pad msg
  (processBlocks (padded.length / 64) sha256H0 padded).foldr
    (fun h acc => be32 h ++ acc) []

/-- FIPS 180-4 test vector: the digest of `"abc"`. -/
example : sha256 [0x61, 0x62, 0x63] =
    [0xba, 0x78, 0x16, 0xbf, 0x8f, 0x01, 0xcf, 0xea, 0x41, 0x41, 0x40, 0xde,
     0x5d, 0xae, 0x22, 0x23, 0xb0, 0x03, 0x61, 0xa3, 0x96, 0x17, 0x7a, 0x9c,
     0xb4, 0x10, 0xff, 0x61, 0xf2, 0x00, 0x15, 0xad] := by decide

/-! ## UTF-8 bytes and url-safe base64 -/

/-- UTF-8 encoding of one scalar value (for the ASCII verifiers the flow
generates this is the single identical byte). -/
def utf8EncodeChar (c : Char) : List Nat :=
  let n := c.toNat
  if n < 128 then [n]
  else if n < 2048 then [192 + n / 64, 128 + n % 64]
  else if n < 65536 then [224 + n / 4096, 128 + (n / 64) % 64, 128 + n % 64]
  else [240 + n / 262144, 128 + (n / 4096) % 64, 128 + (n / 64) % 64, 128 + n % 64]

/-- The UTF-8 bytes of a string (what `hash.update(string)` digests). -/
def utf8Bytes (s : String) : List Nat :=
  s.toList.foldr (fun c acc => utf8EncodeChar c ++ acc) []

/-- The url-safe base64 alphabet. -/
def b64UrlAlphabet : String :=
  "ABCDEFGHIJKLMNOPQRSTUVWXYZabcdefghijklmnopqrstuvwxyz0123456789-_"

/-- The url-safe base64 character of a 6-bit value. -/
def b64Char (n : Nat) : Char := b64UrlAlphabet.toList.getD n 'A'

/-- Url-safe base64, without padding (Node's `'base64url'` encoding). -/
def base64UrlChars : List Nat → List Char
  | [] => []
  | [a] => [b64Char (a >>> 2), b64Char ((a &&& 3) <<< 4)]
  | [a, b] => [b64Char (a >>> 2), b64Char (((a &&& 3) <<< 4) ||| (b >>> 4)),
               b64Char ((b &&& 15) <<< 2)]
  | a :: b :: c :: rest =>
    b64Char (a >>> 2) :: b64Char (((a &&& 3) <<< 4) ||| (b >>> 4)) ::
    b64Char (((b &&& 15) <<< 2) ||| (c >>> 6)) :: b64Char (c &&& 63) ::
    base64UrlChars rest

/-- Url-safe base64 of a byte sequence, as a string. -/
def base64UrlEncode (bytes : List Nat) : String := String.mk (base64UrlChars bytes)

example : base64UrlEncode [77, 97, 110] = "TWFu" := by decide

/-- `generateCodeChallenge` from `src/utils/oauth.ts`:
`crypto.createHash('sha256').update(verifier).digest('base64url')`. -/
def generateCodeChallenge (verifier : String) : String :=
  base64UrlEncode (sha256 (utf8Bytes verifier))

/-! ## The authorization URL's query parameters (`performOAuthFlow`) -/

/-- The `OAuthConfig` interface.  `config.authUrl` is modelled as the pair of
its non-query part and the query parameters it already carries (for the
repository's callers that is `provider=authkit` or nothing). -/
structure OAuthConfig where
  authUrlBase : String
  authUrlParams : List (String × String)
  tokenUrl : String
  clientId : String
  scopes : List String
  signupUrl : Option String
  appName : Option String
deriving DecidableEq, Repr

/-- Delete every entry with the given key. -/
def removeKey : List (String × String) → String → List (String × String)
  | [], _ => []
  | p :: ps, k => if p.1 = k then removeKey ps k else p :: removeKey ps k

/-- `URLSearchParams.set`: replace the value of the first entry with the
key (deleting any further entries with it), or append a new entry. -/
def setParam : List (String × String) → String → String → List (String × String)
  | [], k, v => [(k, v)]
  | p :: ps, k, v =>
    if p.1 = k then (k, v) :: removeKey ps k
    else p :: setParam ps k v

/-- `URLSearchParams.get`: the value of the first entry with the key. -/
def getParam : List (String × String) → String → Option String
  | [], _ => none
  | p :: ps, k => if p.1 = k then some p.2 else getParam ps k

/-- The query parameters of the provider authorization URL built at the top
of `performOAuthFlow`: the seven `searchParams.set` calls, in source order,
applied to whatever parameters `config.authUrl` already carried. -/
def buildAuthParams (cfg : OAuthConfig) (codeChallenge state : String) :
    List (String × String) :=
  setParam (setParam (setParam (setParam (setParam (setParam (setParam
    cfg.authUrlParams
    "client_id" cfg.clientId)
    "redirect_uri" redirectUri)
    "response_type" "code")
    "code_challenge" codeChallenge)
    "code_challenge_method" "S256")
    "scope" (String.intercalate " " cfg.scopes))
    "state" state

theorem getParam_removeKey_ne (ps : List (String × String)) (k k' : String)
    (h : k' ≠ k) : getParam (removeKey ps k) k' = getParam ps k' := by
  have hkk : ¬ k = k' := fun hk => h hk.symm
  induction ps with
  | nil => rfl
  | cons p ps ih =>
    by_cases hp : p.1 = k
    · have hp' : ¬ p.1 = k' := by rw [hp]; exact hkk
      simp [removeKey, hp, getParam, hp', hkk, h, ih]
    · by_cases hp' : p.1 = k'
      · simp [removeKey, hp, getParam, hp', hkk, h]
      · simp [removeKey, hp, getParam, hp', hkk, h, ih]

theorem getParam_setParam_eq (ps : List (String × String)) (k v : String) :
    getParam (setParam ps k v) k = some v := by
  induction ps with
  | nil => simp [setParam, getParam]
  | cons p ps ih =>
    by_cases hp : p.1 = k
    · simp [setParam, hp, getParam]
    · simp [setParam, hp, getParam, ih]

theorem getParam_setParam_ne (ps : List (String × String)) (k v k' : String)
    (h : k' ≠ k) : getParam (setParam ps k v) k' = getParam ps k' := by
  have hkk : ¬ k = k' := fun hk => h hk.symm
  induction ps with
  | nil => simp [setParam, getParam, hkk]
  | cons p ps ih =>
    by_cases hp : p.1 = k
    · have hp' : ¬ p.1 = k' := by rw [hp]; exact hkk
      simp [setParam, hp, getParam, hkk, h, hp',
        getParam_removeKey_ne ps k k' h]
    · by_cases hp' : p.1 = k'
      · simp [setParam, hp, getParam, hp', hkk, h]
      · simp [setParam, hp, getParam, hp', hkk, h, ih]

/-! ## JSON values (the image of `JSON.parse`)

Numbers are modelled as integers: the credential file only ever stores
integral epoch-millisecond timestamps. -/

/-- A JSON value. -/
inductive JVal where
  | jnull
  | jbool (b : Bool)
  | jnum (n : Int)
  | jstr (s : String)
  | jarr (elems : List JVal)
  | jobj (fields : List (String × JVal))
deriving Repr

/-! ## A recursive-descent JSON parser (models `JSON.parse`) -/

/-- JSON insignificant whitespace. -/
def isWsChar (c : Char) : Bool := c = ' ' || c = '\n' || c = '\r' || c = '\t'

/-- Skip leading whitespace. -/
def skipWs : List Char → List Char
  | [] => []
  | c :: cs => if isWsChar c then skipWs cs else c :: cs

/-- An ASCII decimal digit. -/
def isDigitChar (c : Char) : Bool := 48 ≤ c.toNat && c.toNat ≤ 57

/-- The value of a hexadecimal digit. -/
def hexVal (c : Char) : Option Nat :=
  if 48 ≤ c.toNat && c.toNat ≤ 57 then some (c.toNat - 48)
  else if 97 ≤ c.toNat && c.toNat ≤ 102 then some (c.toNat - 87)
  else if 65 ≤ c.toNat && c.toNat ≤ 70 then some (c.toNat - 55)
  else none

/-- The character a short escape `\e` denotes, if `e` is a legal short
escape. -/
def shortEscape (e : Char) : Option Char :=
  if e = '"' then some '"'
  else if e = '\\' then some '\\'
  else if e = '/' then some '/'
  else if e = 'b' then some (Char.ofNat 8)
  else if e = 'f' then some (Char.ofNat 12)
  else if e = 'n' then some (Char.ofNat 10)
  else if e = 'r' then some (Char.ofNat 13)
  else if e = 't' then some (Char.ofNat 9)
  else none

/-- Decode a `\uXXXX` escape, after the `u`: four hexadecimal digits
denoting a scalar value. -/
def decodeUEscape : List Char → Option (Char × List Char)
  | h1 :: h2 :: h3 :: h4 :: rest3 =>
    match hexVal h1, hexVal h2, hexVal h3, hexVal h4 with
    | some a, some b, some c, some d =>
      let n := 4096 * a + 256 * b + 16 * c + d
      if h : n.isValidChar then some (Char.ofNatAux n h, rest3) else none
    | _, _, _, _ => none
  | _ => none

/-- Decode one escape sequence, after the backslash. -/
def decodeEscape : List Char → Option (Char × List Char)
  | [] => none
  | e :: rest2 =>
    if e = 'u' then decodeUEscape rest2
    else
      match shortEscape e with
      | some d => some (d, rest2)
      | none => none

/-- Parse the body of a string literal, after the opening quote, up to and
including the closing quote; unescapes, refuses raw control characters.
`fuel` is decremented once per character of content; callers pass one more
than the remaining input length, which can never run out. -/
def parseStringBody : Nat → List Char → Option (List Char × List Char)
  | 0, _ => none
  | fuel + 1, cs =>
    match cs with
    | [] => none
    | c :: rest =>
      if c = '"' then some ([], rest)
      else if c = '\\' then
        match decodeEscape rest with
        | some (d, rest2) => (parseStringBody fuel rest2).map (fun p => (d :: p.1, p.2))
        | none => none
      else if c.toNat < 32 then none
      else (parseStringBody fuel rest).map (fun p => (c :: p.1, p.2))

/-- Take the maximal run of decimal digits. -/
def takeDigits : List Char → List Char × List Char
  | [] => ([], [])
  | c :: cs =>
    if isDigitChar c then
      let p := takeDigits cs
      (c :: p.1, p.2)
    else ([], c :: cs)

/-- The numeric value of a digit run. -/
def digitsToNat (ds : List Char) : Nat :=
  ds.foldl (fun acc c => 10 * acc + (c.toNat - 48)) 0

/-- Parse the magnitude of a JSON number (digits with no redundant leading
zero; fractional and exponent forms are outside the integer model). -/
def parseNumMag (cs : List Char) : Option (Nat × List Char) :=
  let p := takeDigits cs
  if p.1 = [] then none
  else if 1 < p.1.length && p.1.getD 0 '0' = '0' then none
  else
    match p.2 with
    | [] => some (digitsToNat p.1, [])
    | c :: _ =>
      if c = '.' || c = 'e' || c = 'E' then none
      else some (digitsToNat p.1, p.2)

/-- Parse a JSON number (an optional minus sign and a magnitude). -/
def parseNumber : List Char → Option (Int × List Char)
  | [] => none
  | c :: rest =>
    if c = '-' then (parseNumMag rest).map (fun p => (-(p.1 : Int), p.2))
    else (parseNumMag (c :: rest)).map (fun p => ((p.1 : Int), p.2))

mutual

/-- Parse one JSON value.  `fuel` only bounds nesting and member counts;
`parseJsonText` supplies more than any input can consume. -/
def parseValue : Nat → List Char → Option (JVal × List Char)
  | 0, _ => none
  | fuel + 1, cs =>
    match skipWs cs with
    | [] => none
    | c :: rest =>
      if c = '"' then
        (parseStringBody (rest.length + 1) rest).map (fun p => (.jstr (String.mk p.1), p.2))
      else if c = braceO then
        match skipWs rest with
        | [] => none
        | c2 :: r2 =>
          if c2 = braceC then some (.jobj [], r2)
          else (parseMembers fuel (c2 :: r2)).map (fun p => (.jobj p.1, p.2))
      else if c = '[' then
        match skipWs rest with
        | [] => none
        | c2 :: r2 =>
          if c2 = ']' then some (.jarr [], r2)
          else (parseElems fuel (c2 :: r2)).map (fun p => (.jarr p.1, p.2))
      else if c = 't' then
        match rest with
        | 'r' :: 'u' :: 'e' :: r => some (.jbool true, r)
        | _ => none
      else if c = 'f' then
        match rest with
        | 'a' :: 'l' :: 's' :: 'e' :: r => some (.jbool false, r)
        | _ => none
      else if c = 'n' then
        match rest with
        | 'u' :: 'l' :: 'l' :: r => some (.jnull, r)
        | _ => none
      else
        (parseNumber (c :: rest)).map (fun p => (.jnum p.1, p.2))

/-- Parse the members of an object, after the opening brace (at least
one member). -/
def parseMembers : Nat → List Char → Option (List (String × JVal) × List Char)
  | 0, _ => none
  | fuel + 1, cs =>
    match skipWs cs with
    | '"' :: r =>
      match parseStringBody (r.length + 1) r with
      | none => none
      | some (kc, r2) =>
        match skipWs r2 with
        | ':' :: r3 =>
          match parseValue fuel r3 with
          | none => none
          | some (v, r4) =>
            match skipWs r4 with
            | [] => none
            | c :: r5 =>
              if c = ',' then
                (parseMembers fuel r5).map (fun p => ((String.mk kc, v) :: p.1, p.2))
              else if c = braceC then some ([(String.mk kc, v)], r5)
              else none
        | _ => none
    | _ => none

/-- Parse the elements of an array, after the opening bracket (at least
one element). -/
def parseElems : Nat → List Char → Option (List JVal × List Char)
  | 0, _ => none
  | fuel + 1, cs =>
    match parseValue fuel cs with
    | none => none
    | some (v, r) =>
      match skipWs r with
      | ',' :: r2 => (parseElems fuel r2).map (fun p => (v :: p.1, p.2))
      | ']' :: r2 => some ([v], r2)
      | _ => none

end

/-- `JSON.parse`: one complete JSON value, possibly surrounded by
whitespace; anything else is a parse failure (a thrown `SyntaxError` in the
source, always caught by its callers). -/
def parseJsonText (s : String) : Option JVal :=
  match parseValue (s.length + 1) s.toList with
  | some (j, rest) => if skipWs rest = [] then some j else none
  | none => none

/-! ## The stored-credentials schema (`StoredCredentialsSchema`) -/

/-- `StoredCredentials` (`z.infer<typeof StoredCredentialsSchema>`):
`accessToken`, optional `refreshToken`, `developerId`, `email` (validated),
optional `name`, optional `expiresAt` (epoch milliseconds). -/
structure StoredCredentials where
  accessToken : String
  refreshToken : Option String
  developerId : String
  email : String
  name : Option String
  expiresAt : Option Int
deriving DecidableEq, Repr

/-- An ASCII letter. -/
def isAsciiLetter (c : Char) : Bool :=
  (65 ≤ c.toNat && c.toNat ≤ 90) || (97 ≤ c.toNat && c.toNat ≤ 122)

/-- An ASCII letter or digit. -/
def isAlnum (c : Char) : Bool := isAsciiLetter c || isDigitChar c

/-- A character allowed anywhere but last in the local part of an email
(zod's `[A-Za-z0-9_'+\-\.]`). -/
def isLocalBodyChar (c : Char) : Bool :=
  isAlnum c || c = '_' || c = Char.ofNat 39 || c = '+' || c = '-' || c = '.'

/-- A character allowed as the last of the local part
(zod's `[A-Za-z0-9_+\-]`). -/
def isLocalEndChar (c : Char) : Bool :=
  isAlnum c || c = '_' || c = '+' || c = '-'

/-- Whether two consecutive dots occur. -/
def hasDoubleDot : List Char → Bool
  | '.' :: '.' :: _ => true
  | _ :: rest => hasDoubleDot rest
  | [] => false

/-- Split on a separator character. -/
def splitOnChar (sep : Char) : List Char → List (List Char)
  | [] => [[]]
  | c :: rest =>
    if c = sep then [] :: splitOnChar sep rest
    else
      match splitOnChar sep rest with
      | h :: t => (c :: h) :: t
      | [] => [[c]]

/-- A domain label: leading letter or digit, then letters, digits or
hyphens (zod's `[A-Za-z0-9][A-Za-z0-9\-]*`). -/
def isDomainLabel (l : List Char) : Bool :=
  match l with
  | [] => false
  | c :: rest => isAlnum c && rest.all (fun d => isAlnum d || d = '-')

/-- A top-level-domain part: at least two letters (zod's `[A-Za-z]{2,}`). -/
def isTldPart (l : List Char) : Bool := 2 ≤ l.length && l.all isAsciiLetter

/-- `z.string().email()`: zod's email regular expression
`^(?!\.)(?!.*\.\.)([A-Za-z0-9_'+\-\.]*)[A-Za-z0-9_+\-]@([A-Za-z0-9][A-Za-z0-9\-]*\.)+[A-Za-z]{2,}$`
as an executable predicate: no leading dot, no double dot, a non-empty
local part of local-body characters ending in a local-end character, an
`@`, and dot-separated domain labels ending in a letters-only TLD. -/
def isEmail (s : String) : Bool :=
  let cs := s.toList
  (match cs with
   | '.' :: _ => false
   | _ => true) &&
  !hasDoubleDot cs &&
  (match splitOnChar '@' cs with
   | [loc, dom] =>
     (match loc.getLast? with
      | none => false
      | some lastc => loc.dropLast.all isLocalBodyChar && isLocalEndChar lastc) &&
     (let parts := splitOnChar '.' dom
      2 ≤ parts.length && parts.dropLast.all isDomainLabel &&
      (match parts.getLast? with
       | none => false
       | some tld => isTldPart tld))
   | _ => false)

/-- The value of the last member with the given key (`JSON.parse` keeps the
last of duplicate keys). -/
def getFieldLast (fields : List (String × JVal)) (k : String) : Option JVal :=
  fields.foldl (fun acc f => if f.1 = k then some f.2 else acc) none

/-- `z.string().optional()` applied to a looked-up member: absent is fine,
a string is fine, anything else (including `null`) fails. -/
def optStrVal : Option JVal → Option (Option String)
  | none => some none
  | some (.jstr s) => some (some s)
  | some _ => none

/-- `z.number().optional()` applied to a looked-up member. -/
def optNumVal : Option JVal → Option (Option Int)
  | none => some none
  | some (.jnum n) => some (some n)
  | some _ => none

/-- `StoredCredentialsSchema.parse` on a JSON value: `none` models the
thrown `ZodError` (always caught by `loadCredentials`). -/
def validateStoredCredentials (j : JVal) : Option StoredCredentials :=
  match j with
  | .jobj fields =>
    match getFieldLast fields "accessToken", getFieldLast fields "developerId",
          getFieldLast fields "email" with
    | some (.jstr tok), some (.jstr dev), some (.jstr em) =>
      if isEmail em then
        match optStrVal (getFieldLast fields "refreshToken"),
              optStrVal (getFieldLast fields "name"),
              optNumVal (getFieldLast fields "expiresAt") with
        | some rt, some nm, some ea => some ⟨tok, rt, dev, em, nm, ea⟩
        | _, _, _ => none
      else none
    | _, _, _ => none
  | _ => none

/-! ## `JSON.stringify(credentials, null, 2)` and the credential file -/

/-- Lowercase hexadecimal digit character. -/
def hexDigitChar (n : Nat) : Char :=
  if n < 10 then Char.ofNat (48 + n) else Char.ofNat (87 + n)

/-- `JSON.stringify`'s escaping of one character: quote and backslash, the
short escapes for the usual control characters, `\u00xx` for the remaining
control characters, every other character itself. -/
def escChar (c : Char) : List Char :=
  if c = '"' then ['\\', '"']
  else if c = '\\' then ['\\', '\\']
  else if c.toNat = 8 then ['\\', 'b']
  else if c.toNat = 9 then ['\\', 't']
  else if c.toNat = 10 then ['\\', 'n']
  else if c.toNat = 12 then ['\\', 'f']
  else if c.toNat = 13 then ['\\', 'r']
  else if c.toNat < 32 then
    ['\\', 'u', '0', '0', hexDigitChar (c.toNat / 16), hexDigitChar (c.toNat % 16)]
  else [c]

/-- Escape every character of a string's characters. -/
def escList (cs : List Char) : List Char :=
  cs.foldr (fun c acc => escChar c ++ acc) []

/-- Decimal digit character. -/
def digitChar (n : Nat) : Char := Char.ofNat (48 + n)

/-- Decimal digits of a natural number, most significant first
(`fuel`-bounded so that the definition evaluates in the kernel; any
`fuel > n` gives the digits). -/
def natDigitsFuel : Nat → Nat → List Char
  | 0, _ => []
  | fuel + 1, n =>
    if n < 10 then [digitChar n]
    else natDigitsFuel fuel (n / 10) ++ [digitChar (n % 10)]

/-- Decimal digits of a natural number. -/
def natDigits (n : Nat) : List Char := natDigitsFuel (n + 1) n

/-- The characters `JSON.stringify` writes for an integral number. -/
def intChars (n : Int) : List Char :=
  if n < 0 then '-' :: natDigits n.natAbs else natDigits n.natAbs

/-- The characters `JSON.stringify` writes for a scalar value. -/
def scalarChars : JVal → List Char
  | .jstr s => '"' :: (escList s.toList ++ ['"'])
  | .jnum n => intChars n
  | .jbool true => ['t', 'r', 'u', 'e']
  | .jbool false => ['f', 'a', 'l', 's', 'e']
  | .jnull => ['n', 'u', 'l', 'l']
  | .jarr _ => []
  | .jobj _ => []

/-- The members of a flat object as `JSON.stringify(·, null, 2)` lays them
out: two-space indent, `": "` after the key, `",\n"` between members, a
final newline before the closing brace. -/
def membersChars : List (String × JVal) → List Char
  | [] => []
  | f :: fs =>
    ' ' :: ' ' :: '"' ::
      (escList f.1.toList ++ ['"', ':', ' '] ++ scalarChars f.2 ++
        (match fs with
         | [] => ['\n']
         | _ :: _ => ',' :: '\n' :: membersChars fs))

/-- The fields of the serialized credentials object, in the order the
source constructs them; fields holding `undefined` are omitted, exactly as
`JSON.stringify` omits them. -/
def credFields (c : StoredCredentials) : List (String × JVal) :=
  [("accessToken", .jstr c.accessToken)] ++
  (match c.refreshToken with
   | some r => [("refreshToken", JVal.jstr r)]
   | none => []) ++
  [("developerId", .jstr c.developerId), ("email", .jstr c.email)] ++
  (match c.name with
   | some n => [("name", JVal.jstr n)]
   | none => []) ++
  (match c.expiresAt with
   | some e => [("expiresAt", JVal.jnum e)]
   | none => [])

/-- `JSON.stringify(credentials, null, 2)`: the exact text `saveCredentials`
writes to the credential file. -/
def printCreds (c : StoredCredentials) : String :=
  String.mk (braceO :: '\n' :: (membersChars (credFields c) ++ [braceC]))

/-- The credential file as `loadCredentials` finds it. -/
inductive FileState where
  | missing
  | present (content : String)
deriving DecidableEq, Repr

/-- `saveCredentials`: the file content written (permissions and directory
creation are outside the model). -/
def saveCredentials (c : StoredCredentials) : FileState :=
  .present (printCreds c)

/-- `loadCredentials`, translated clause for clause: a missing file is
`null`; otherwise `JSON.parse` then `StoredCredentialsSchema.parse`, any
failure of either caught and turned into `null`.  Total by construction —
the model of "never throws out of this call". -/
def loadCredentials : FileState → Option StoredCredentials
  | .missing => none
  | .present s =>
    match parseJsonText s with
    | none => none
    | some j => validateStoredCredentials j

/-- The five-minute validity buffer, in milliseconds. -/
def bufferMs : Int := 5 * 60 * 1000

/-- The expiry decision of `hasValidCredentials`, given the loaded
credentials (or `null`) and `Date.now()`:  no credentials is `false`;
`!credentials.expiresAt` (absent **or zero**, by JavaScript falsiness) is
`true`; otherwise `!(now >= expiresAt - bufferMs)`. -/
def hasValidCredsWith (creds : Option StoredCredentials) (now : Int) : Bool :=
  match creds with
  | none => false
  | some c =>
    match c.expiresAt with
    | none => true
    | some e => if e = 0 then true else decide (now < e - bufferMs)

/-- `hasValidCredentials`: load, then decide validity at `Date.now()`. -/
def hasValidCredentialsAt (file : FileState) (now : Int) : Bool :=
  hasValidCredsWith (loadCredentials file) now

/-- A value printed on one line inside the flat credentials object. -/
def isScalarVal : JVal → Bool
  | .jstr _ => true
  | .jnum _ => true
  | _ => false

/-- The first character of `rest` cannot extend a number: not a digit, not
a decimal point, not an exponent marker. -/
def numBoundary : List Char → Prop
  | [] => True
  | c :: _ => isDigitChar c = false ∧ c ≠ '.' ∧ c ≠ 'e' ∧ c ≠ 'E'

/-! ## Conversion helper lemmas -/

theorem toNat_ofNatAux (n : Nat) (h : n.isValidChar) : (Char.ofNatAux n h).toNat = n := by
  have : n < 1114112 := by
    rcases h with h | ⟨h1, h2⟩
    · omega
    · omega
  simp [Char.ofNatAux, Char.toNat, UInt32.toNat, UInt32.ofNat', BitVec.toNat_ofNat]

theorem char_eq_of_toNat_eq (c d : Char) (h : c.toNat = d.toNat) : c = d := by
  apply Char.ext
  have : c.val.toNat = d.val.toNat := h
  exact UInt32.toNat.inj this

theorem toNat_ofNat_valid (n : Nat) (h : n.isValidChar) : (Char.ofNat n).toNat = n := by
  unfold Char.ofNat
  rw [dif_pos h]
  exact toNat_ofNatAux n h

/-! ## Parser/printer round-trip lemmas -/

theorem mk_toList (s : String) : String.mk s.toList = s := rfl

theorem skipWs_cons_of_ws (c : Char) (cs : List Char) (h : isWsChar c = true) :
    skipWs (c :: cs) = skipWs cs := by
  simp [skipWs, h]

theorem skipWs_cons_of_not_ws (c : Char) (cs : List Char) (h : isWsChar c = false) :
    skipWs (c :: cs) = c :: cs := by
  simp [skipWs, h]

theorem parseValue_cons_of_ws (fuel : Nat) (c : Char) (cs : List Char)
    (h : isWsChar c = true) :
    parseValue fuel (c :: cs) = parseValue fuel cs := by
  cases fuel with
  | zero => rfl
  | succ f => simp only [parseValue, skipWs_cons_of_ws c cs h]

theorem parseMembers_cons_of_ws (fuel : Nat) (c : Char) (cs : List Char)
    (h : isWsChar c = true) :
    parseMembers fuel (c :: cs) = parseMembers fuel cs := by
  cases fuel with
  | zero => rfl
  | succ f => simp only [parseMembers, skipWs_cons_of_ws c cs h]

theorem hexVal_hexDigitChar (m : Nat) (h : m < 16) :
    hexVal (hexDigitChar m) = some m := by
  interval_cases m <;> decide

theorem escList_nil : escList [] = [] := rfl

theorem escList_cons (c : Char) (l : List Char) :
    escList (c :: l) = escChar c ++ escList l := rfl

theorem escChar_length_pos (c : Char) : 1 ≤ (escChar c).length := by
  unfold escChar
  split_ifs <;> simp

theorem escList_length_ge (l : List Char) : l.length ≤ (escList l).length := by
  induction l with
  | nil => simp [escList_nil]
  | cons c l ih =>
    rw [escList_cons, List.length_append, List.length_cons]
    have := escChar_length_pos c
    omega

theorem parseStringBody_escList (l : List Char) : ∀ (fuel : Nat) (rest : List Char),
    l.length < fuel →
    parseStringBody fuel (escList l ++ '"' :: rest) = some (l, rest) := by
  induction l with
  | nil =>
    intro fuel rest h
    cases fuel with
    | zero => omega
    | succ f => simp [escList_nil, parseStringBody]
  | cons c l ih =>
    intro fuel rest h
    cases fuel with
    | zero => simp at h
    | succ f =>
      have hih := ih f rest (by simp at h; omega)
      rw [escList_cons, List.append_assoc]
      by_cases h1 : c = '"'
      · subst h1
        simp [escChar, parseStringBody, decodeEscape, shortEscape, hih]
      · by_cases h2 : c = '\\'
        · subst h2
          simp [escChar, parseStringBody, decodeEscape, shortEscape, hih]
        · by_cases h3 : c.toNat = 8
          · have hc : c = Char.ofNat 8 := char_eq_of_toNat_eq c (Char.ofNat 8) (by rw [h3]; decide)
            subst hc
            simp [escChar, parseStringBody, decodeEscape, shortEscape, hih]
          · by_cases h4 : c.toNat = 9
            · have hc : c = Char.ofNat 9 := char_eq_of_toNat_eq c (Char.ofNat 9) (by rw [h4]; decide)
              subst hc
              simp [escChar, parseStringBody, decodeEscape, shortEscape, hih]
            · by_cases h5 : c.toNat = 10
              · have hc : c = Char.ofNat 10 :=
                  char_eq_of_toNat_eq c (Char.ofNat 10) (by rw [h5]; decide)
                subst hc
                simp [escChar, parseStringBody, decodeEscape, shortEscape, hih]
              · by_cases h6 : c.toNat = 12
                · have hc : c = Char.ofNat 12 :=
                    char_eq_of_toNat_eq c (Char.ofNat 12) (by rw [h6]; decide)
                  subst hc
                  simp [escChar, parseStringBody, decodeEscape, shortEscape, hih]
                · by_cases h7 : c.toNat = 13
                  · have hc : c = Char.ofNat 13 :=
                      char_eq_of_toNat_eq c (Char.ofNat 13) (by rw [h7]; decide)
                    subst hc
                    simp [escChar, parseStringBody, decodeEscape, shortEscape, hih]
                  · by_cases h8 : c.toNat < 32
                    · -- the `\u00xx` escape
                      have hdiv : c.toNat / 16 < 16 := by omega
                      have hmod : c.toNat % 16 < 16 := by omega
                      have hesc : escChar c =
                          ['\\', 'u', '0', '0', hexDigitChar (c.toNat / 16),
                           hexDigitChar (c.toNat % 16)] := by
                        simp [escChar, h1, h2, h3, h4, h5, h6, h7, h8]
                      rw [hesc]
                      have hvalid : Nat.isValidChar c.toNat := Or.inl (by omega)
                      have hof : ∀ h : Nat.isValidChar c.toNat,
                          Char.ofNatAux c.toNat h = c :=
                        fun h => char_eq_of_toNat_eq _ _ (toNat_ofNatAux c.toNat h)
                      have h0 : hexVal '0' = some 0 := by decide
                      have hd : decodeEscape ('u' :: '0' :: '0' ::
                          hexDigitChar (c.toNat / 16) :: hexDigitChar (c.toNat % 16) ::
                          (escList l ++ '"' :: rest)) =
                          some (c, escList l ++ '"' :: rest) := by
                        simp [decodeEscape, decodeUEscape, h0,
                          hexVal_hexDigitChar _ hdiv, hexVal_hexDigitChar _ hmod,
                          Nat.div_add_mod, hvalid, hof]
                      simp [parseStringBody, hd, hih]
                    · -- an ordinary character, emitted verbatim
                      have hesc : escChar c = [c] := by
                        simp [escChar, h1, h2, h3, h4, h5, h6, h7, h8]
                      rw [hesc]
                      simp [parseStringBody, h1, h2, h8, hih]

theorem digitsToNat_append_singleton (xs : List Char) (d : Char) :
    digitsToNat (xs ++ [d]) = 10 * digitsToNat xs + (d.toNat - 48) := by
  simp [digitsToNat, List.foldl_append]

theorem toNat_digitChar (m : Nat) (h : m < 10) : (digitChar m).toNat = 48 + m := by
  interval_cases m <;> decide

theorem isDigit_digitChar (m : Nat) (h : m < 10) : isDigitChar (digitChar m) = true := by
  interval_cases m <;> decide

theorem isDigitChar_toNat (c : Char) (h : isDigitChar c = true) :
    48 ≤ c.toNat ∧ c.toNat ≤ 57 := by
  simpa [isDigitChar, Bool.and_eq_true, decide_eq_true_iff] using h

theorem getD_append_of_ne_nil (xs ys : List Char) (d : Char) (h : xs ≠ []) :
    (xs ++ ys).getD 0 d = xs.getD 0 d := by
  cases xs with
  | nil => exact absurd rfl h
  | cons x xs => simp

theorem natDigitsFuel_spec : ∀ (fuel n : Nat), n < fuel →
    natDigitsFuel fuel n ≠ [] ∧
    (∀ c ∈ natDigitsFuel fuel n, isDigitChar c = true) ∧
    digitsToNat (natDigitsFuel fuel n) = n ∧
    (1 ≤ n → (natDigitsFuel fuel n).getD 0 '0' ≠ '0') ∧
    (1 < (natDigitsFuel fuel n).length → 10 ≤ n) := by
  intro fuel
  induction fuel with
  | zero => intro n h; omega
  | succ f ih =>
    intro n h
    by_cases h10 : n < 10
    · simp only [natDigitsFuel, if_pos h10]
      refine ⟨by simp, ?_, ?_, ?_, by simp⟩
      · intro c hc
        simp only [List.mem_singleton] at hc
        subst hc
        exact isDigit_digitChar n h10
      · simp [digitsToNat, toNat_digitChar n h10]
      · intro h1 hcon
        have : (digitChar n).toNat = ('0' : Char).toNat := by
          simp only [List.getD_cons_zero] at hcon
          rw [hcon]
        rw [toNat_digitChar n h10] at this
        simp at this
        omega
    · simp only [natDigitsFuel, if_neg h10]
      have hdiv : n / 10 < f := by omega
      obtain ⟨hne, hdig, hval, hhead, _⟩ := ih (n / 10) hdiv
      refine ⟨by simp, ?_, ?_, ?_, fun _ => by omega⟩
      · intro c hc
        rcases List.mem_append.mp hc with hc | hc
        · exact hdig c hc
        · simp only [List.mem_singleton] at hc
          subst hc
          exact isDigit_digitChar _ (by omega)
      · rw [digitsToNat_append_singleton, hval, toNat_digitChar _ (by omega)]
        omega
      · intro _
        rw [getD_append_of_ne_nil _ _ _ hne]
        exact hhead (by omega)

theorem natDigits_ne_nil (n : Nat) : natDigits n ≠ [] :=
  (natDigitsFuel_spec (n + 1) n (by omega)).1

theorem natDigits_digits (n : Nat) : ∀ c ∈ natDigits n, isDigitChar c = true :=
  (natDigitsFuel_spec (n + 1) n (by omega)).2.1

theorem digitsToNat_natDigits (n : Nat) : digitsToNat (natDigits n) = n :=
  (natDigitsFuel_spec (n + 1) n (by omega)).2.2.1

theorem natDigits_head_ne_zero (n : Nat) (h : 1 ≤ n) :
    (natDigits n).getD 0 '0' ≠ '0' :=
  (natDigitsFuel_spec (n + 1) n (by omega)).2.2.2.1 h

theorem natDigits_long_ge_ten (n : Nat) :
    1 < (natDigits n).length → 10 ≤ n :=
  (natDigitsFuel_spec (n + 1) n (by omega)).2.2.2.2

theorem takeDigits_append (ds rest : List Char)
    (hds : ∀ c ∈ ds, isDigitChar c = true)
    (hrest : ∀ c, rest.head? = some c → isDigitChar c = false) :
    takeDigits (ds ++ rest) = (ds, rest) := by
  induction ds with
  | nil =>
    cases rest with
    | nil => rfl
    | cons c rs => simp [takeDigits, hrest c rfl]
  | cons d ds ih =>
    have ih' := ih (fun c hc => hds c (by simp [hc]))
    simp [takeDigits, hds d (by simp), ih']

theorem parseNumMag_printed (n : Nat) (rest : List Char) (hrest : numBoundary rest) :
    parseNumMag (natDigits n ++ rest) = some (n, rest) := by
  have hrest' : ∀ c, rest.head? = some c → isDigitChar c = false := by
    intro c hc
    cases rest with
    | nil => simp at hc
    | cons r rs =>
      simp only [List.head?_cons, Option.some.injEq] at hc
      subst hc
      exact hrest.1
  unfold parseNumMag
  rw [takeDigits_append _ _ (natDigits_digits n) hrest']
  simp only
  rw [if_neg (natDigits_ne_nil n)]
  have hlz : (1 < (natDigits n).length && (natDigits n).getD 0 '0' = '0') = false := by
    by_cases hl : 1 < (natDigits n).length
    · have h10 : 10 ≤ n := natDigits_long_ge_ten n hl
      have hh := natDigits_head_ne_zero n (by omega)
      have hd : decide ((natDigits n).getD 0 '0' = '0') = false := decide_eq_false hh
      rw [hd, Bool.and_false]
    · have hd : decide (1 < (natDigits n).length) = false := decide_eq_false hl
      rw [hd, Bool.false_and]
  rw [hlz]
  simp only [Bool.false_eq_true, if_false]
  cases rest with
  | nil => rw [digitsToNat_natDigits]
  | cons c rs =>
    obtain ⟨_, h2, h3, h4⟩ := hrest
    simp [h2, h3, h4, digitsToNat_natDigits]

theorem isWsChar_false_of_digit (c : Char) (h : isDigitChar c = true) :
    isWsChar c = false := by
  obtain ⟨ha, hb⟩ := isDigitChar_toNat c h
  have h1 : ¬ c = ' ' := fun he => absurd (he ▸ ha) (by decide)
  have h2 : ¬ c = '\n' := fun he => absurd (he ▸ ha) (by decide)
  have h3 : ¬ c = '\r' := fun he => absurd (he ▸ ha) (by decide)
  have h4 : ¬ c = '\t' := fun he => absurd (he ▸ ha) (by decide)
  simp [isWsChar, h1, h2, h3, h4]

theorem digit_ne_of_toNat (c d : Char) (h : isDigitChar c = true)
    (hd : d.toNat < 48 ∨ 57 < d.toNat) : c ≠ d := by
  obtain ⟨ha, hb⟩ := isDigitChar_toNat c h
  intro he
  rw [he] at ha hb
  omega

theorem parseNumber_intChars (n : Int) (rest : List Char) (hrest : numBoundary rest) :
    parseNumber (intChars n ++ rest) = some (n, rest) := by
  unfold intChars
  by_cases hneg : n < 0
  · rw [if_pos hneg]
    simp only [List.cons_append, parseNumber, if_pos rfl,
      parseNumMag_printed n.natAbs rest hrest]
    simp only [Option.map_some']
    rw [show -((n.natAbs : Int)) = n by omega]
    simp
  · rw [if_neg hneg]
    cases hnd : natDigits n.natAbs with
    | nil => exact absurd hnd (natDigits_ne_nil _)
    | cons d ds =>
      have hddig : isDigitChar d = true := by
        apply natDigits_digits n.natAbs
        rw [hnd]; simp
      have hdm : ¬ d = '-' := digit_ne_of_toNat d '-' hddig (by decide)
      simp only [List.cons_append, parseNumber, if_neg hdm]
      rw [← List.cons_append, ← hnd, parseNumMag_printed n.natAbs rest hrest]
      simp only [Option.map_some']
      rw [show ((n.natAbs : Int)) = n by omega]

theorem parseValue_scalar (fuel : Nat) (v : JVal) (hv : isScalarVal v = true)
    (rest : List Char) (hrest : numBoundary rest) :
    parseValue (fuel + 1) (scalarChars v ++ rest) = some (v, rest) := by
  cases v with
  | jnull => simp [isScalarVal] at hv
  | jbool b => simp [isScalarVal] at hv
  | jarr es => simp [isScalarVal] at hv
  | jobj fs => simp [isScalarVal] at hv
  | jstr s =>
    have hlen : s.toList.length <
        (escList s.toList ++ '"' :: rest).length + 1 := by
      simp only [List.length_append, List.length_cons]
      have := escList_length_ge s.toList
      omega
    simp only [scalarChars, List.cons_append, List.append_assoc, List.singleton_append]
    simp only [parseValue, skipWs_cons_of_not_ws _ _ (by decide : isWsChar '"' = false)]
    simp only [if_true, List.nil_append]
    rw [parseStringBody_escList s.toList ((escList s.toList ++ '"' :: rest).length + 1)
      rest hlen]
    simp [mk_toList]
  | jnum n =>
    by_cases hneg : n < 0
    · have hi : intChars n = '-' :: natDigits n.natAbs := by
        simp [intChars, hneg]
      simp only [scalarChars, hi, List.cons_append]
      simp only [parseValue, skipWs_cons_of_not_ws _ _ (by decide : isWsChar '-' = false)]
      rw [if_neg (by decide), if_neg (by decide), if_neg (by decide),
        if_neg (by decide), if_neg (by decide), if_neg (by decide)]
      rw [← List.cons_append, ← hi, parseNumber_intChars n rest hrest]
      rfl
    · have hi : intChars n = natDigits n.natAbs := by
        simp [intChars, hneg]
      cases hnd : natDigits n.natAbs with
      | nil => exact absurd hnd (natDigits_ne_nil _)
      | cons d ds =>
        have hddig : isDigitChar d = true := by
          apply natDigits_digits n.natAbs
          rw [hnd]; simp
        simp only [scalarChars, hi, hnd, List.cons_append]
        simp only [parseValue,
          skipWs_cons_of_not_ws _ _ (isWsChar_false_of_digit d hddig)]
        rw [if_neg (digit_ne_of_toNat d '"' hddig (by decide)),
          if_neg (digit_ne_of_toNat d braceO hddig (by decide)),
          if_neg (digit_ne_of_toNat d '[' hddig (by decide)),
          if_neg (digit_ne_of_toNat d 't' hddig (by decide)),
          if_neg (digit_ne_of_toNat d 'f' hddig (by decide)),
          if_neg (digit_ne_of_toNat d 'n' hddig (by decide))]
        rw [← List.cons_append, ← hnd, ← hi, parseNumber_intChars n rest hrest]
        rfl

theorem membersChars_single (f : String × JVal) :
    membersChars [f] = ' ' :: ' ' :: '"' ::
      (escList f.1.toList ++ ['"', ':', ' '] ++ scalarChars f.2 ++ ['\n']) := rfl

theorem membersChars_cons_cons (f g : String × JVal) (gs : List (String × JVal)) :
    membersChars (f :: g :: gs) = ' ' :: ' ' :: '"' ::
      (escList f.1.toList ++ ['"', ':', ' '] ++ scalarChars f.2 ++
        (',' :: '\n' :: membersChars (g :: gs))) := rfl

theorem parseMembers_printed : ∀ (fs : List (String × JVal)) (fuel : Nat) (rest : List Char),
    fs ≠ [] → fs.length ≤ fuel →
    (∀ f ∈ fs, isScalarVal f.2 = true) →
    parseMembers (fuel + 1) (membersChars fs ++ braceC :: rest) = some (fs, rest) := by
  intro fs
  induction fs with
  | nil => intro fuel rest hne _ _; exact absurd rfl hne
  | cons f fs ih =>
    intro fuel rest _ hlen hscal
    simp only [List.length_cons] at hlen
    obtain ⟨fl, rfl⟩ : ∃ fl, fuel = fl + 1 := ⟨fuel - 1, by omega⟩
    have hsc : isScalarVal f.2 = true := hscal f (by simp)
    have hsp : isWsChar ' ' = true := by decide
    have hnw : isWsChar '\n' = true := by decide
    have hq : isWsChar '"' = false := by decide
    have hcolon : isWsChar ':' = false := by decide
    have hb1 : isWsChar braceC = false := by decide
    have hb2 : ¬ (braceC = ',') := by decide
    cases fs with
    | nil =>
      rw [membersChars_single]
      simp only [List.cons_append, List.append_assoc, List.singleton_append, List.nil_append]
      simp only [parseMembers, skipWs_cons_of_ws _ _ hsp, skipWs_cons_of_not_ws _ _ hq]
      have key := parseStringBody_escList f.1.toList
        ((escList f.1.toList ++
          '"' :: ':' :: ' ' :: (scalarChars f.2 ++ '\n' :: braceC :: rest)).length + 1)
        (':' :: ' ' :: (scalarChars f.2 ++ '\n' :: braceC :: rest))
        (by simp only [List.length_append, List.length_cons]
            have := escList_length_ge f.1.toList
            omega)
      rw [key]
      have hb : numBoundary ('\n' :: braceC :: rest) :=
        ⟨by decide, by decide, by decide, by decide⟩
      have hw1 : parseValue (fl + 1) (' ' :: (scalarChars f.2 ++ '\n' :: braceC :: rest)) =
          some (f.2, '\n' :: braceC :: rest) := by
        rw [parseValue_cons_of_ws _ _ _ hsp]
        exact parseValue_scalar fl f.2 hsc _ hb
      simp [hw1, skipWs_cons_of_ws, skipWs_cons_of_not_ws, hnw, hb1, hb2, hcolon, mk_toList]
    | cons g gs =>
      simp only [List.length_cons] at hlen
      have hrec : parseMembers (fl + 1)
          ('\n' :: (membersChars (g :: gs) ++ braceC :: rest)) = some (g :: gs, rest) := by
        rw [parseMembers_cons_of_ws _ _ _ hnw]
        exact ih fl rest (by simp) (by simp only [List.length_cons]; omega)
          (fun x hx => hscal x (by simp [hx]))
      rw [membersChars_cons_cons]
      simp only [List.cons_append, List.append_assoc, List.singleton_append, List.nil_append]
      rw [parseMembers]
      simp only [skipWs_cons_of_ws _ _ hsp, skipWs_cons_of_not_ws _ _ hq]
      have key := parseStringBody_escList f.1.toList
        ((escList f.1.toList ++ '"' :: ':' :: ' ' ::
          (scalarChars f.2 ++ ',' :: '\n' :: (membersChars (g :: gs) ++ braceC :: rest))).length + 1)
        (':' :: ' ' :: (scalarChars f.2 ++ ',' :: '\n' :: (membersChars (g :: gs) ++ braceC :: rest)))
        (by simp only [List.length_append, List.length_cons]
            have := escList_length_ge f.1.toList
            omega)
      rw [key]
      have hb : numBoundary (',' :: '\n' :: (membersChars (g :: gs) ++ braceC :: rest)) :=
        ⟨by decide, by decide, by decide, by decide⟩
      have hw1 : parseValue (fl + 1)
          (' ' :: (scalarChars f.2 ++ ',' :: '\n' :: (membersChars (g :: gs) ++ braceC :: rest))) =
          some (f.2, ',' :: '\n' :: (membersChars (g :: gs) ++ braceC :: rest)) := by
        rw [parseValue_cons_of_ws _ _ _ hsp]
        exact parseValue_scalar fl f.2 hsc _ hb
      have hcomma : isWsChar ',' = false := by decide
      simp [hw1, hrec, skipWs_cons_of_ws, skipWs_cons_of_not_ws, hcolon, hcomma, mk_toList]

theorem toList_mk (l : List Char) : (String.mk l).toList = l := rfl

theorem mk_length (l : List Char) : (String.mk l).length = l.length := rfl

theorem membersChars_cons (f : String × JVal) (fs : List (String × JVal)) :
    membersChars (f :: fs) = ' ' :: ' ' :: '"' ::
      (escList f.1.toList ++ ['"', ':', ' '] ++ scalarChars f.2 ++
        (match fs with
         | [] => ['\n']
         | _ :: _ => ',' :: '\n' :: membersChars fs)) := rfl

theorem membersChars_length_ge (fs : List (String × JVal)) :
    fs.length ≤ (membersChars fs).length := by
  induction fs with
  | nil => simp [membersChars]
  | cons f fs ih =>
    cases fs with
    | nil => simp [membersChars_single]
    | cons g gs =>
      rw [membersChars_cons_cons]
      simp only [List.length_cons, List.length_append]
      simp only [List.length_cons] at ih ⊢
      omega

theorem parseValue_printedObj (fs : List (String × JVal)) (fuel : Nat) (rest : List Char)
    (hne : fs ≠ []) (hfuel : fs.length + 1 ≤ fuel)
    (hscal : ∀ f ∈ fs, isScalarVal f.2 = true) :
    parseValue (fuel + 1) (braceO :: '\n' :: (membersChars fs ++ braceC :: rest)) =
      some (.jobj fs, rest) := by
  obtain ⟨fl, rfl⟩ : ∃ fl, fuel = fl + 1 := ⟨fuel - 1, by omega⟩
  cases fs with
  | nil => exact absurd rfl hne
  | cons f fs =>
    have hsp : isWsChar ' ' = true := by decide
    have hnw : isWsChar '\n' = true := by decide
    have hbo : isWsChar braceO = false := by decide
    have hm0 := parseMembers_printed (f :: fs) fl rest (by simp)
      (by simp only [List.length_cons] at hfuel ⊢; omega) hscal
    rw [membersChars_cons] at hm0
    simp only [List.cons_append, List.append_assoc, List.singleton_append,
      List.nil_append] at hm0
    rw [parseMembers_cons_of_ws _ _ _ hsp, parseMembers_cons_of_ws _ _ _ hsp] at hm0
    rw [parseValue]
    rw [skipWs_cons_of_not_ws _ _ hbo]
    rw [membersChars_cons]
    simp only [List.cons_append, List.append_assoc, List.singleton_append, List.nil_append]
    simp only [skipWs_cons_of_ws _ _ hnw, skipWs_cons_of_ws _ _ hsp,
      skipWs_cons_of_not_ws _ _ (by decide : isWsChar '"' = false)]
    rw [if_neg (by decide : ¬ (braceO = '"'))]
    simp only [if_true]
    rw [if_neg (by decide : ¬ ('"' = braceC)), hm0]
    rfl

theorem parseJsonText_printedObj (fs : List (String × JVal))
    (hne : fs ≠ []) (hscal : ∀ f ∈ fs, isScalarVal f.2 = true) :
    parseJsonText (String.mk (braceO :: '\n' :: (membersChars fs ++ [braceC]))) =
      some (.jobj fs) := by
  unfold parseJsonText
  rw [toList_mk, mk_length]
  have hfuel : fs.length + 1 ≤ (braceO :: '\n' :: (membersChars fs ++ [braceC])).length := by
    simp only [List.length_cons, List.length_append]
    have := membersChars_length_ge fs
    omega
  rw [show (braceO :: '\n' :: (membersChars fs ++ [braceC])) =
      (braceO :: '\n' :: (membersChars fs ++ braceC :: ([] : List Char))) from rfl] at hfuel ⊢
  rw [parseValue_printedObj fs _ [] hne hfuel hscal]
  simp [skipWs]

theorem credFields_ne_nil (c : StoredCredentials) : credFields c ≠ [] := by
  obtain ⟨tok, rt, dev, em, nm, ea⟩ := c
  cases rt <;> cases nm <;> cases ea <;> simp [credFields]

theorem credFields_scalar (c : StoredCredentials) :
    ∀ f ∈ credFields c, isScalarVal f.2 = true := by
  have hall : (credFields c).all (fun f => isScalarVal f.2) = true := by
    obtain ⟨tok, rt, dev, em, nm, ea⟩ := c
    cases rt <;> cases nm <;> cases ea <;> simp [credFields, isScalarVal]
  intro f hf
  exact List.all_eq_true.mp hall f hf

theorem validate_credFields (c : StoredCredentials) (hem : isEmail c.email = true) :
    validateStoredCredentials (.jobj (credFields c)) = some c := by
  obtain ⟨tok, rt, dev, em, nm, ea⟩ := c
  simp only [] at hem
  cases rt <;> cases nm <;> cases ea <;>
    simp [credFields, validateStoredCredentials, getFieldLast, optStrVal, optNumVal, hem]

/-! ## Claim theorems -/

/-- Claim C1, counterexample.  A `/callback` request whose `state` (`"s1"`)
differs from the state generated for the attempt (`"s0"`) but which also
carries `error=access_denied` is answered with status 200 (not 400) and
rejected with the OAuth-error message (not the state-mismatch one): the
`error` branch of the handler runs before the state validation. -/
theorem state_mismatch_error_precedence :
    handleRequest "https://auth.example/authorize" none "s0"
      ⟨"/callback", some "c", some "access_denied", some "s1", none⟩ =
      (⟨200, .cancelledHtml⟩, some (.reject "OAuth error: access_denied")) ∧
    (some "s1" : Option String) ≠ some "s0" ∧
    (200 : Nat) ≠ 400 ∧
    CallbackSignal.reject "OAuth error: access_denied" ≠ .reject stateMismatchMsg := by
  refine ⟨by decide, by decide, by decide, by decide⟩

/-- Claim C1 (amended).  A `/callback` request whose `state` differs from
the expected state (or is absent) never resolves `Authorized`; and whenever
its `error` parameter is absent or empty — so that the error branch does
not pre-empt the check — the listener answers 400 with the invalid-state
page and rejects the flow with the state-mismatch message. -/
theorem state_mismatch_rejected (expected : String) (q : CallbackQuery)
    (hstate : q.state ≠ some expected) :
    (∀ c, (handleCallback expected q).2 ≠ CallbackSignal.resolve c) ∧
    (jsTruthy q.error = false →
      handleCallback expected q = (⟨400, .invalidStateHtml⟩, .reject stateMismatchMsg)) := by
  have hcond : (!jsTruthy q.state || decide (¬ q.state.getD "" = expected)) = true := by
    cases hs : q.state with
    | none => simp [jsTruthy]
    | some s =>
      by_cases hse : s = ""
      · simp [jsTruthy, hse]
      · have hne : ¬ s = expected := fun h => hstate (by rw [hs, h])
        simp [jsTruthy, hse, hne]
  constructor
  · intro c
    unfold handleCallback
    by_cases herr : jsTruthy q.error
    · simp only [herr, if_true]
      split <;> simp
    · simp only [herr, Bool.false_eq_true, if_false, hcond, if_true]
      simp
  · intro herr
    unfold handleCallback
    simp only [herr, Bool.false_eq_true, if_false, hcond, if_true]

/-- Claim C1, witness to the amended theorem at a concrete mismatching
request. -/
theorem state_mismatch_rejected_witness :
    ((some "s1" : Option String) ≠ some "s0") ∧
    handleCallback "s0" ⟨some "c", none, some "s1"⟩ =
      (⟨400, .invalidStateHtml⟩, .reject stateMismatchMsg) := by
  refine ⟨by decide, ?_⟩
  exact (state_mismatch_rejected "s0" ⟨some "c", none, some "s1"⟩ (by decide)).2 (by decide)

/-- Claim C2: the timeout path exists and closes the listener, but the
user-facing message is NOT the timeout-specific one.  The race timer
rejects with `Authorization timed out`, whose text does not contain the
substring `timeout` that the `catch` block tests with
`error.message.includes('timeout')` — so the dedicated
"Authorization timed out after 5 minutes" branch is unreachable from the
timer and the generic "Authorization failed:" message is printed instead.
The timeout constant itself is 300 seconds as specified. -/
theorem timeout_message_misclassified :
    OAUTH_TIMEOUT_MS = 300 * 1000 ∧
    flowAwaitPhase .timerFired (fun _ => .failure "unused") =
      { serverClosed := true, tokenEndpointCalled := false,
        outcome := .inr (.genericMsg, "Authorization timed out") } ∧
    containsSubstr timerRejectionMsg "timeout" = false ∧
    classifyFailure timerRejectionMsg ≠ .timedOutMsg := by
  refine ⟨by decide, by decide, by decide, by decide⟩

/-- Claim C3: on every exit of the phase after the listener has started —
successful exchange, exchange failure, callback rejection (denial, error,
state mismatch, missing code) or timer expiry — `server.close()` has run
before the orchestrator returns or throws. -/
theorem server_closed_on_every_exit (awaited : AwaitOutcome)
    (exchange : String → ExchangeOutcome) :
    (flowAwaitPhase awaited exchange).serverClosed = true := by
  rcases awaited with s | _
  · rcases s with code | msg
    · cases hx : exchange code <;> simp [flowAwaitPhase, hx]
    · rfl
  · rfl

/-- Claim C4, counterexample.  A `/callback` request with no `error`, a
matching `state`, and a `code` parameter that is present but empty
(`?code=`) is answered 400 with the no-code page and rejected — not
answered with the success page and `Authorized("")` as the claim's
universal reading requires: `if (code)` is false for the empty string. -/
theorem empty_code_not_authorized :
    handleCallback "s0" ⟨some "", none, some "s0"⟩ =
      (⟨400, .noCodeHtml⟩, .reject noCodeMsg) ∧
    (⟨400, Page.noCodeHtml⟩, CallbackSignal.reject noCodeMsg) ≠
      ((⟨200, .successHtml⟩, .resolve "") : HttpResponse × CallbackSignal) := by
  refine ⟨by decide, by decide⟩

/-- Claim C4 (amended).  A `/callback` request with no `error` parameter, a
`state` equal to the (non-empty, as generated) expected state, and a
non-empty `code` is answered 200 with the success page and resolves the
flow `Authorized` with the exact code string, unmodified. -/
theorem matching_state_code_authorized (expected : String) (q : CallbackQuery)
    (c : String) (herr : q.error = none) (hstate : q.state = some expected)
    (hexp : expected ≠ "") (hcode : q.code = some c) (hc : c ≠ "") :
    handleCallback expected q = (⟨200, .successHtml⟩, .resolve c) := by
  unfold handleCallback
  simp [herr, hstate, hcode, jsTruthy, hexp, hc]

/-- Claim C4, witness to the amended theorem: the spec's own end-to-end
scenario code `XYZ` passes through unmodified. -/
theorem matching_state_code_authorized_witness :
    handleCallback "s0" ⟨some "XYZ", none, some "s0"⟩ =
      (⟨200, .successHtml⟩, .resolve "XYZ") :=
  matching_state_code_authorized "s0" ⟨some "XYZ", none, some "s0"⟩ "XYZ"
    rfl rfl (by decide) rfl (by decide)

/-- Claim C5, counterexample.  Two failures of the claim's dichotomy:
(1) the error value `access_denied2` — "any other error value" — gets the
400 error page from the listener, but the orchestrator's
`includes('access_denied')` test then classifies the flow as the *denial*
outcome, not as an error; (2) an *empty* `error` parameter (`?error=`) is
ignored entirely by the falsy `if (error)` test, and the request resolves
`Authorized` rather than `Denied`/`Error`. -/
theorem error_value_classification_gaps :
    (handleCallback "s0" ⟨none, some "access_denied2", none⟩ =
        (⟨400, .failedHtml⟩, .reject "OAuth error: access_denied2") ∧
      classifyFailure "OAuth error: access_denied2" = .cancelledMsg) ∧
    handleCallback "s0" ⟨some "XYZ", some "", some "s0"⟩ =
      (⟨200, .successHtml⟩, .resolve "XYZ") := by
  refine ⟨⟨by decide, by decide⟩, by decide⟩

/-- Claim C5 (amended).  For a non-empty `error` value the listener answers
exactly `access_denied` with the benign 200 page and every other value with
the 400 error page, in both cases rejecting the flow with
`OAuth error: <value>` — so the flow always fails with that thrown error
and the token endpoint is never called.  The Denied-versus-Error
distinction is made only later, in the orchestrator's `catch` block, by
substring tests on the message, applied in the order `timeout`,
`State mismatch`, `access_denied`, else generic — so exact `access_denied`
surfaces as the denial message, but other values follow the same substring
cascade (`access_denied2` also surfaces as the denial message, `timeout` as
the timeout message, and `access_denied_timeout` as the timeout message,
the `timeout` test coming first). -/
theorem error_callback_rejects (expected : String) (q : CallbackQuery)
    (err : String) (herr : q.error = some err) (hne : err ≠ "")
    (exchange : String → ExchangeOutcome) :
    handleCallback expected q =
      (⟨if err = "access_denied" then 200 else 400,
        if err = "access_denied" then Page.cancelledHtml else Page.failedHtml⟩,
       .reject ("OAuth error: " ++ err)) ∧
    flowAwaitPhase (.callback (.reject ("OAuth error: " ++ err))) exchange =
      { serverClosed := true, tokenEndpointCalled := false,
        outcome := .inr (classifyFailure ("OAuth error: " ++ err),
                         "OAuth error: " ++ err) } ∧
    classifyFailure "OAuth error: access_denied" = .cancelledMsg ∧
    classifyFailure "OAuth error: access_denied2" = .cancelledMsg ∧
    classifyFailure "OAuth error: timeout" = .timedOutMsg ∧
    classifyFailure "OAuth error: access_denied_timeout" = .timedOutMsg := by
  refine ⟨?_, rfl, by decide, by decide, by decide, by decide⟩
  unfold handleCallback
  by_cases had : err = "access_denied" <;> simp [herr, jsTruthy, hne, had]

/-- Claim C5, witness to the amended theorem at the error value
`server_error`. -/
theorem error_callback_rejects_witness :
    handleCallback "s0" ⟨none, some "server_error", none⟩ =
      (⟨400, .failedHtml⟩, .reject "OAuth error: server_error") ∧
    flowAwaitPhase (.callback (.reject "OAuth error: server_error"))
        (fun _ => .failure "unused") =
      { serverClosed := true, tokenEndpointCalled := false,
        outcome := .inr (.genericMsg, "OAuth error: server_error") } := by
  have h := error_callback_rejects "s0" ⟨none, some "server_error", none⟩
    "server_error" rfl (by decide) (fun _ => .failure "unused")
  refine ⟨?_, ?_⟩
  · have h1 := h.1
    simpa using h1
  · exact h.2.1

/-- Claim C6: the provider authorization URL built by `performOAuthFlow`
carries `client_id`, the fixed loopback redirect URI, `response_type=code`,
`code_challenge` equal to the unpadded url-safe base64 of the SHA-256
digest of the verifier's (ASCII) bytes, `code_challenge_method=S256`,
`scope` equal to the configured scopes joined by single spaces in order,
and the freshly generated `state` — whatever query parameters the
configured auth URL already carried. -/
theorem auth_url_params_complete (cfg : OAuthConfig) (verifier st : String) :
    getParam (buildAuthParams cfg (generateCodeChallenge verifier) st) "client_id"
      = some cfg.clientId ∧
    getParam (buildAuthParams cfg (generateCodeChallenge verifier) st) "redirect_uri"
      = some redirectUri ∧
    redirectUri = "http://localhost:8239/callback" ∧
    getParam (buildAuthParams cfg (generateCodeChallenge verifier) st) "response_type"
      = some "code" ∧
    getParam (buildAuthParams cfg (generateCodeChallenge verifier) st) "code_challenge"
      = some (base64UrlEncode (sha256 (utf8Bytes verifier))) ∧
    getParam (buildAuthParams cfg (generateCodeChallenge verifier) st) "code_challenge_method"
      = some "S256" ∧
    getParam (buildAuthParams cfg (generateCodeChallenge verifier) st) "scope"
      = some (String.intercalate " " cfg.scopes) ∧
    getParam (buildAuthParams cfg (generateCodeChallenge verifier) st) "state"
      = some st := by
  unfold buildAuthParams
  refine ⟨?_, ?_, by decide, ?_, ?_, ?_, ?_, ?_⟩
  · rw [getParam_setParam_ne _ _ _ _ (by decide), getParam_setParam_ne _ _ _ _ (by decide),
      getParam_setParam_ne _ _ _ _ (by decide), getParam_setParam_ne _ _ _ _ (by decide),
      getParam_setParam_ne _ _ _ _ (by decide), getParam_setParam_ne _ _ _ _ (by decide),
      getParam_setParam_eq]
  · rw [getParam_setParam_ne _ _ _ _ (by decide), getParam_setParam_ne _ _ _ _ (by decide),
      getParam_setParam_ne _ _ _ _ (by decide), getParam_setParam_ne _ _ _ _ (by decide),
      getParam_setParam_ne _ _ _ _ (by decide), getParam_setParam_eq]
  · rw [getParam_setParam_ne _ _ _ _ (by decide), getParam_setParam_ne _ _ _ _ (by decide),
      getParam_setParam_ne _ _ _ _ (by decide), getParam_setParam_ne _ _ _ _ (by decide),
      getParam_setParam_eq]
  · rw [getParam_setParam_ne _ _ _ _ (by decide), getParam_setParam_ne _ _ _ _ (by decide),
      getParam_setParam_ne _ _ _ _ (by decide), getParam_setParam_eq]
    rfl
  · rw [getParam_setParam_ne _ _ _ _ (by decide), getParam_setParam_ne _ _ _ _ (by decide),
      getParam_setParam_eq]
  · rw [getParam_setParam_ne _ _ _ _ (by decide), getParam_setParam_eq]
  · rw [getParam_setParam_eq]

/-- Claim C7, counterexample.  Stored credentials recording
`expiresAt = 0` are judged valid at any time — `!credentials.expiresAt` is
true for the number `0` by JavaScript falsiness — although the claim's
biconditional requires `false` whenever `expiresAt ≤ now + 5 minutes`. -/
theorem expires_at_zero_judged_valid :
    hasValidCredsWith (some ⟨"t", none, "d", "e@f.gh", none, some 0⟩) 1000000 = true ∧
    (0 : Int) ≤ 1000000 + bufferMs := by
  refine ⟨by decide, by decide⟩

/-- Claim C7 (amended).  With no credentials the check is `false`; with no
recorded `expiresAt` it is `true`; a recorded `expiresAt` of `0` is treated
like an absent one (JavaScript falsiness) and gives `true`; and for any
other recorded `expiresAt` the check is `true` exactly when
`now < expiresAt − 5 minutes`, equivalently `false` exactly when
`expiresAt ≤ now + 5 minutes`. -/
theorem credential_validity_window (c : StoredCredentials) (now e : Int)
    (he : c.expiresAt = some e) (hz : e ≠ 0) :
    (hasValidCredsWith (some c) now = true ↔ now < e - bufferMs) ∧
    (hasValidCredsWith (some c) now = false ↔ e ≤ now + bufferMs) ∧
    hasValidCredsWith none now = false ∧
    (∀ c2 : StoredCredentials, c2.expiresAt = none →
      hasValidCredsWith (some c2) now = true) ∧
    (∀ c3 : StoredCredentials, c3.expiresAt = some 0 →
      hasValidCredsWith (some c3) now = true) := by
  have h1 : hasValidCredsWith (some c) now = decide (now < e - bufferMs) := by
    simp [hasValidCredsWith, he, hz]
  refine ⟨?_, ?_, rfl, ?_, ?_⟩
  · rw [h1]; simp
  · rw [h1]
    constructor
    · intro h
      have := of_decide_eq_false h
      omega
    · intro h
      apply decide_eq_false
      omega
  · intro c2 h2; simp [hasValidCredsWith, h2]
  · intro c3 h3; simp [hasValidCredsWith, h3]

/-- Claim C7, witness to the amended theorem: with `expiresAt = 700000` the
check is true at `now = 100` (more than five minutes early) and the
equivalences instantiate. -/
theorem credential_validity_window_witness :
    (hasValidCredsWith (some ⟨"t", none, "d", "a@b.co", none, some 700000⟩) 100 = true
      ↔ (100 : Int) < 700000 - bufferMs) ∧
    (hasValidCredsWith (some ⟨"t", none, "d", "a@b.co", none, some 700000⟩) 100 = false
      ↔ (700000 : Int) ≤ 100 + bufferMs) := by
  have h := credential_validity_window ⟨"t", none, "d", "a@b.co", none, some 700000⟩
    100 700000 rfl (by decide)
  exact ⟨h.1, h.2.1⟩

/-- Claim C10: a `/callback` request with no `error` parameter, a `state`
equal to the (non-empty, as generated) expected state, but no `code`
parameter is answered 400 with the no-code page and rejects the flow with
`No authorization code in callback URL` — an outcome is produced (the await
cannot stay pending) and it is never `Authorized`. -/
theorem no_code_rejected (expected : String) (q : CallbackQuery)
    (herr : q.error = none) (hstate : q.state = some expected)
    (hexp : expected ≠ "") (hcode : q.code = none) :
    handleCallback expected q = (⟨400, .noCodeHtml⟩, .reject noCodeMsg) ∧
    (∀ c, CallbackSignal.reject noCodeMsg ≠ .resolve c) := by
  constructor
  · unfold handleCallback
    simp [herr, hstate, hcode, jsTruthy, hexp]
  · intro c h
    cases h

/-- Claim C8: `loadCredentials` never throws — it is total into
`Option` — and it returns the parsed credentials exactly when the file is
present, parses as JSON and passes the schema, and `none` when the file is
missing, empty, not JSON (e.g. `not json`), or schema-invalid (e.g. a
numeric `accessToken`). -/
theorem load_credentials_total_or_absent :
    loadCredentials .missing = none ∧
    loadCredentials (.present "") = none ∧
    loadCredentials (.present "not json") = none ∧
    loadCredentials (.present
      (String.mk (braceO :: ("\"accessToken\": 5".toList ++ [braceC])))) = none ∧
    (∀ s, parseJsonText s = none → loadCredentials (.present s) = none) ∧
    (∀ s j, parseJsonText s = some j → validateStoredCredentials j = none →
      loadCredentials (.present s) = none) ∧
    (∀ s j c, parseJsonText s = some j → validateStoredCredentials j = some c →
      loadCredentials (.present s) = some c) := by
  refine ⟨rfl, by decide, by decide, by decide, ?_, ?_, ?_⟩
  · intro s h
    simp [loadCredentials, h]
  · intro s j h hv
    simp [loadCredentials, h, hv]
  · intro s j c h hv
    simp [loadCredentials, h, hv]

/-- Claim C8, witness: the general clauses instantiated at a string that is
not JSON and at a schema-valid credential object. -/
theorem load_credentials_total_or_absent_witness :
    parseJsonText "bogus" = none ∧
    loadCredentials (.present "bogus") = none ∧
    loadCredentials (.present
      (String.mk (braceO ::
        ("\"accessToken\": \"t\", \"developerId\": \"d\", \"email\": \"a@b.co\"".toList
          ++ [braceC])))) =
      some ⟨"t", none, "d", "a@b.co", none, none⟩ := by
  refine ⟨rfl, ?_, ?_⟩
  · exact load_credentials_total_or_absent.2.2.2.2.1 "bogus" rfl
  · exact load_credentials_total_or_absent.2.2.2.2.2.2 _
      (.jobj [("accessToken", .jstr "t"), ("developerId", .jstr "d"),
              ("email", .jstr "a@b.co")])
      ⟨"t", none, "d", "a@b.co", none, none⟩ rfl rfl

/-- Claim C9, counterexample.  `saveCredentials` accepts any
`StoredCredentials` value, but `loadCredentials` re-validates against the
schema, whose `z.string().email()` rejects `not-an-email` — so save
followed by load returns `null`, not the value saved. -/
theorem roundtrip_fails_on_invalid_email :
    loadCredentials (saveCredentials ⟨"tok", none, "dev", "not-an-email", none, none⟩)
      = none ∧
    (none : Option StoredCredentials) ≠
      some ⟨"tok", none, "dev", "not-an-email", none, none⟩ := by
  refine ⟨by decide, by decide⟩

/-- Claim C9 (amended): for every `StoredCredentials` value whose `email`
passes the schema's email validation, `saveCredentials` followed by
`loadCredentials` returns a value field-for-field equal to the one saved —
through the full pipeline of `JSON.stringify(·, null, 2)`, `JSON.parse`,
and schema validation. -/
theorem save_load_roundtrip (c : StoredCredentials) (hem : isEmail c.email = true) :
    loadCredentials (saveCredentials c) = some c := by
  have hpr : printCreds c =
      String.mk (braceO :: '\n' :: (membersChars (credFields c) ++ [braceC])) := rfl
  have hp := parseJsonText_printedObj (credFields c) (credFields_ne_nil c)
    (credFields_scalar c)
  show loadCredentials (.present (printCreds c)) = some c
  rw [hpr]
  simp [loadCredentials, hp, validate_credFields c hem]

/-- Claim C9, witness: a concrete credential bundle with all optional
fields present round-trips exactly. -/
theorem save_load_roundtrip_witness :
    isEmail "a@b.co" = true ∧
    loadCredentials (saveCredentials
        ⟨"tok_1", some "r", "dev", "a@b.co", some "Ann", some 1700000000000⟩) =
      some ⟨"tok_1", some "r", "dev", "a@b.co", some "Ann", some 1700000000000⟩ :=
  ⟨by decide, save_load_roundtrip _ (by decide)⟩

/-- Claim C10, witness at a concrete no-code request. -/
theorem no_code_rejected_witness :
    handleCallback "s0" ⟨none, none, some "s0"⟩ =
      (⟨400, .noCodeHtml⟩, .reject noCodeMsg) :=
  (no_code_rejected "s0" ⟨none, none, some "s0"⟩ rfl rfl (by decide) rfl).1

end Wizard
